import Mathlib

/-!
Verification development for the Optimum Interval Method (OIM) core of the
hps-exclusion repository.

The numpy code is shallowly embedded over lists of rationals:

* `largest_intervals_by_k` embeds `_oim.largest_intervals_by_k` for a
  one-dimensional data array; `largest_intervals_by_k_batched` embeds the same
  source function applied to a two-dimensional (batch × events) array.
* `generate_max_interval_samples` embeds
  `_sample_generation.generate_max_interval_samples`, with the random draws
  (Poisson per-trial event counts and per-trial sorted uniform samples) made
  explicit inputs; `np.nan` is modelled by `Option.none`.
* `OptimumIntervalMethod.max_signal_strength_allowed` embeds the evaluator and
  limit scan of `_oim.OptimumIntervalMethod.max_signal_strength_allowed`.

`npmax`, `npmaxN` and `npargmax` model `np.max` and `np.argmax` on the
relevant one-dimensional slices (first-occurrence semantics for `argmax`).
-/

/-- Model of `np.max` on a one-dimensional slice of floats, here rationals.
Returns 0 on the empty list; every in-range use below is on a non-empty slice,
matching numpy which refuses an empty reduction. -/
def npmax : List ℚ → ℚ
  | [] => 0
  | x :: xs => xs.foldl max x

/-- Model of `np.max` on a one-dimensional slice of non-negative integers. -/
def npmaxN (l : List ℕ) : ℕ := l.foldr max 0

/-- Model of `np.argmax` on a one-dimensional slice of non-negative integers:
index of the first occurrence of the maximum (numpy returns the first
maximal index; on the all-equal list this is 0). -/
def npargmax : List ℕ → ℕ
  | [] => 0
  | x :: xs => if npmaxN xs ≤ x then 0 else npargmax xs + 1

theorem foldl_max_le_iff (l : List ℚ) (a b : ℚ) :
    l.foldl max a ≤ b ↔ a ≤ b ∧ ∀ x ∈ l, x ≤ b := by
  induction l generalizing a with
  | nil => simp
  | cons y l ih =>
    simp only [List.foldl_cons, ih, max_le_iff, List.mem_cons]
    constructor
    · rintro ⟨⟨ha, hy⟩, hl⟩
      exact ⟨ha, fun x hx => hx.elim (fun h => h ▸ hy) (hl x)⟩
    · rintro ⟨ha, hl⟩
      exact ⟨⟨ha, hl y (Or.inl rfl)⟩, fun x hx => hl x (Or.inr hx)⟩

theorem foldl_max_mem (l : List ℚ) (a : ℚ) :
    l.foldl max a = a ∨ l.foldl max a ∈ l := by
  induction l generalizing a with
  | nil => exact Or.inl rfl
  | cons y l ih =>
    rcases ih (max a y) with h | h
    · rcases le_total a y with hy | hy
      · right
        rw [List.foldl_cons, h, max_eq_right hy]
        exact List.mem_cons_self _ _
      · left
        rw [List.foldl_cons, h, max_eq_left hy]
    · exact Or.inr (List.mem_cons_of_mem _ h)

theorem npmax_le_iff {l : List ℚ} (h : l ≠ []) (b : ℚ) :
    npmax l ≤ b ↔ ∀ x ∈ l, x ≤ b := by
  match l with
  | [] => exact absurd rfl h
  | x :: xs =>
    simp only [npmax, foldl_max_le_iff, List.mem_cons]
    constructor
    · rintro ⟨hx, hxs⟩
      exact fun y hy => hy.elim (fun h => h ▸ hx) (hxs y)
    · intro hall
      exact ⟨hall x (Or.inl rfl), fun y hy => hall y (Or.inr hy)⟩

theorem le_npmax_of_mem {l : List ℚ} {x : ℚ} (hx : x ∈ l) : x ≤ npmax l := by
  have hne : l ≠ [] := List.ne_nil_of_mem hx
  by_contra hlt
  push_neg at hlt
  have := (npmax_le_iff hne (npmax l)).mp le_rfl x hx
  exact absurd this (not_le.mpr hlt)

theorem npmax_mem {l : List ℚ} (h : l ≠ []) : npmax l ∈ l := by
  match l with
  | x :: xs =>
    rcases foldl_max_mem xs x with h' | h'
    · rw [npmax, h']
      exact List.mem_cons_self _ _
    · exact List.mem_cons_of_mem _ h'

theorem npmax_eq_of_forall_eq {l : List ℚ} {c : ℚ} (h : l ≠ [])
    (hall : ∀ x ∈ l, x = c) : npmax l = c :=
  hall _ (npmax_mem h)

theorem npmaxN_cons (x : ℕ) (xs : List ℕ) : npmaxN (x :: xs) = max x (npmaxN xs) := rfl

theorem npmaxN_le_iff (l : List ℕ) (b : ℕ) :
    npmaxN l ≤ b ↔ ∀ x ∈ l, x ≤ b := by
  induction l with
  | nil => simp [npmaxN]
  | cons y l ih =>
    simp only [npmaxN_cons, max_le_iff, ih, List.mem_cons]
    constructor
    · rintro ⟨hy, hl⟩
      exact fun x hx => hx.elim (fun h => h ▸ hy) (hl x)
    · intro hall
      exact ⟨hall y (Or.inl rfl), fun x hx => hall x (Or.inr hx)⟩

theorem le_npmaxN_of_mem {l : List ℕ} {x : ℕ} (hx : x ∈ l) : x ≤ npmaxN l :=
  (npmaxN_le_iff l (npmaxN l)).mp le_rfl x hx

theorem getD_le_npmaxN {l : List ℕ} {i : ℕ} (h : i < l.length) :
    l.getD i 0 ≤ npmaxN l := by
  rw [List.getD_eq_getElem _ _ h]
  exact le_npmaxN_of_mem (List.getElem_mem h)

theorem getD_map_range {α : Type} (f : ℕ → α) (d : α) {i n : ℕ} (h : i < n) :
    ((List.range n).map f).getD i d = f i := by
  rw [List.getD_eq_getElem _ _ (by simpa using h)]
  simp [List.getElem_map]

theorem getD_map_of_lt {α β : Type} (f : α → β) (l : List α) (d : β) (d' : α)
    {i : ℕ} (h : i < l.length) :
    (l.map f).getD i d = f (l.getD i d') := by
  rw [List.getD_eq_getElem _ _ (by simpa using h), List.getD_eq_getElem _ _ h]
  simp

theorem getD_mem {α : Type} {l : List α} {d : α} {i : ℕ} (h : i < l.length) :
    l.getD i d ∈ l := by
  rw [List.getD_eq_getElem _ _ h]
  exact List.getElem_mem h

theorem getD_eq_default {α : Type} (l : List α) (d : α) {i : ℕ} (h : l.length ≤ i) :
    l.getD i d = d := by
  simp [List.getD_eq_getElem?_getD, List.getElem?_eq_none h]

theorem npargmax_lt_length {l : List ℕ} (h : l ≠ []) : npargmax l < l.length := by
  induction l with
  | nil => exact absurd rfl h
  | cons x xs ih =>
    by_cases hx : npmaxN xs ≤ x
    · simp [npargmax, hx]
    · rcases List.eq_nil_or_concat xs with hnil | _
      · subst hnil
        simp [npmaxN] at hx
      · have hxs : xs ≠ [] := by
          intro hn
          subst hn
          simp [npmaxN] at hx
        simp only [npargmax, if_neg hx, List.length_cons]
        exact Nat.succ_lt_succ (ih hxs)

theorem getD_npargmax {l : List ℕ} (h : l ≠ []) :
    l.getD (npargmax l) 0 = npmaxN l := by
  induction l with
  | nil => exact absurd rfl h
  | cons x xs ih =>
    by_cases hx : npmaxN xs ≤ x
    · simp [npargmax, hx, npmaxN_cons, max_eq_left hx]
    · have hxs : xs ≠ [] := by
        intro hn
        subst hn
        simp [npmaxN] at hx
      simp only [npargmax, if_neg hx, List.getD_cons_succ, ih hxs, npmaxN_cons]
      exact (max_eq_right (le_of_not_le hx)).symm

theorem npargmax_first {l : List ℕ} {i : ℕ} (h : i < npargmax l) :
    l.getD i 0 < npmaxN l := by
  induction l generalizing i with
  | nil => simp [npargmax] at h
  | cons x xs ih =>
    by_cases hx : npmaxN xs ≤ x
    · simp [npargmax, hx] at h
    · simp only [npargmax, if_neg hx] at h
      match i with
      | 0 =>
        simp only [List.getD_cons_zero, npmaxN_cons]
        exact lt_of_lt_of_le (lt_of_not_le hx) (le_max_right _ _)
      | i + 1 =>
        simp only [List.getD_cons_succ, npmaxN_cons]
        exact lt_of_lt_of_le (ih (Nat.lt_of_succ_lt_succ h)) (le_max_right _ _)

/-- Embeds the edge padding of `largest_intervals_by_k` (`_oim.py` lines 29-31):
the data's last axis is padded with a leading `0.0` and a trailing `1.0`. -/
def edges (data : List ℚ) : List ℚ := 0 :: (data ++ [1])

/-- Embeds one `k` step of `largest_intervals_by_k` (`_oim.py` line 33):
`np.max(data_with_edges[...,(k+1):] - data_with_edges[...,:-(k+1)], axis=-1)`
for a one-dimensional slice; the two slices are aligned by `zipWith`
(both have length `M + 2 - (k+1)`, as in numpy). -/
def kth_largest_interval (data : List ℚ) (k : ℕ) : ℚ :=
  npmax (List.zipWith (fun a b => a - b) ((edges data).drop (k + 1)) (edges data))

/-- Embeds `_oim.largest_intervals_by_k` on a one-dimensional data array
(`_oim.py` lines 9-35): the list comprehension over `k in range(M+1)` with the
`k` axis in the zeroth position. -/
def largest_intervals_by_k (data : List ℚ) : List ℚ :=
  (List.range (data.length + 1)).map (kth_largest_interval data)

/-- Embeds `_oim.largest_intervals_by_k` on a two-dimensional (batch × events)
data array: the slice arithmetic and `np.max(axis=-1)` act on the last axis of
each batch row, and the resulting per-`k` arrays are stacked along a new zeroth
axis, so the output is indexed `[k][batch]`. `data.shape[-1]` is the common row
length (the theorems assume rectangular input, as numpy's ndarray forces). -/
def largest_intervals_by_k_batched (data : List (List ℚ)) : List (List ℚ) :=
  (List.range ((data.head?.getD []).length + 1)).map
    (fun k => data.map (fun row => kth_largest_interval row k))

/-- Modelled from the spec side for the refinement claim C4: the value at `k`
is the maximum over all valid `i` of `edge[i+k+1] - edge[i]`. -/
def kth_largest_interval_from_spec (data : List ℚ) (k : ℕ) : ℚ :=
  npmax ((List.range (data.length + 1 - k)).map
    (fun i => (edges data).getD (i + k + 1) 0 - (edges data).getD i 0))

theorem length_edges (data : List ℚ) : (edges data).length = data.length + 2 := by
  simp [edges]

theorem zipWith_drop_eq_map_range (l : List ℚ) (m : ℕ) :
    List.zipWith (fun a b => a - b) (l.drop m) l
      = (List.range (l.length - m)).map (fun i => l.getD (m + i) 0 - l.getD i 0) := by
  apply List.ext_getElem
  · simp
  · intro i h₁ h₂
    have hi : i < l.length - m := by simpa using h₂
    have him : m + i < l.length := by omega
    have hil : i < l.length := by omega
    simp only [List.getElem_zipWith, List.getElem_drop, List.getElem_map, List.getElem_range]
    rw [List.getD_eq_getElem _ _ him, List.getD_eq_getElem _ _ hil]

/-- The code's slice-difference form of the `k`-th largest interval agrees with
the spec's `max over i of edge[i+k+1] - edge[i]` form. -/
theorem kth_largest_interval_eq_spec (data : List ℚ) (k : ℕ) (hk : k ≤ data.length) :
    kth_largest_interval data k = kth_largest_interval_from_spec data k := by
  unfold kth_largest_interval kth_largest_interval_from_spec
  rw [zipWith_drop_eq_map_range]
  have hlen : (edges data).length - (k + 1) = data.length + 1 - k := by
    rw [length_edges]
    omega
  rw [hlen]
  congr 1
  apply List.map_congr_left
  intro i _
  congr 2
  omega

/-- Embeds the padded per-trial sample array `uswe` of
`_sample_generation.generate_max_interval_samples` (lines 50-61) as an index
function for one (mu, trial) column: entry 0 is the lower edge `0.0`, entries
`1..c` are the trial's `c` sorted uniform draws, entry `c+1` is the upper edge
`1.0`, and every later entry is `np.nan` (modelled as `none`; numpy sorts the
`nan` padding past the real draws, giving exactly this layout). -/
def uswe_at (c : ℕ) (events : List ℚ) (j : ℕ) : Option ℚ :=
  if j = 0 then some 0
  else if j ≤ c then some (events.getD (j - 1) 0)
  else if j = c + 1 then some 1
  else none

/-- Embeds the `nan`-aware interval difference of lines 76-82: a difference
touching a `nan` entry is `nan` and is replaced by `-1.0` before the maximum. -/
def nan_diff : Option ℚ → Option ℚ → ℚ
  | some a, some b => a - b
  | some _, none => -1
  | none, some _ => -1
  | none, none => -1

/-- Embeds the per-(k, mu, trial) entry of the generated table (lines 76-89):
maximum of the `nan`-masked interval differences `uswe[(k+1):] - uswe[:-(k+1)]`
over the event axis, with a negative maximum (no interval exists for this `k`
in this trial) recast to `1.0`. `maxcount` is `np.max(trial_counts)`, the
global maximum event count, fixing the event-axis length `maxcount + 2`. -/
def trial_max_interval (maxcount c k : ℕ) (events : List ℚ) : ℚ :=
  let m := npmax ((List.range (maxcount + 2 - (k + 1))).map
    (fun i => nan_diff (uswe_at c events (i + k + 1)) (uswe_at c events i)))
  if m < 0 then 1 else m

/-- Embeds `_sample_generation.generate_max_interval_samples` with the random
draws made explicit: `counts[i_mu][t]` is the Poisson event count of trial `t`
under `mu_values[i_mu]` and `events[i_mu][t]` its sorted uniform draws.
Returns the table indexed `[i_mu][k][t]` (after the final `np.swapaxes`), with
`k` ranging over `0 .. np.max(counts)`. -/
def generate_max_interval_samples (counts : List (List ℕ))
    (events : List (List (List ℚ))) : List (List (List ℚ)) :=
  let maxcount := npmaxN (counts.map npmaxN)
  (List.range counts.length).map (fun i_mu =>
    (List.range (maxcount + 1)).map (fun k =>
      (List.range ((counts.getD i_mu []).length)).map (fun t =>
        trial_max_interval maxcount ((counts.getD i_mu []).getD t 0) k
          ((events.getD i_mu []).getD t []))))

/-- Embeds the dataclass `_oim.OptimumIntervalMethod`: the pre-sampled table
indexed `[i_mu][k][trial]`, the signal-strength grid, the `k` grid, and the
per-mu trial count. -/
structure OptimumIntervalMethod where
  table : List (List (List ℚ))
  mu_values : List ℚ
  k_values : List ℕ
  n_trials_per_mu : ℕ

/-- Embeds `self.table.shape[1]`, the `k`-extent of the (rectangular) table. -/
def OptimumIntervalMethod.tableKDim (o : OptimumIntervalMethod) : ℕ :=
  (o.table.head?.getD []).length

/-- Embeds the confidence array of
`_oim.OptimumIntervalMethod.max_signal_strength_allowed` (lines 97-112) for a
one-dimensional data instance: shape `(n_mu, M+1)`, initialised to `0.0`, and
for `k < min(table.shape[1], M+1)` set to
`np.sum(np.less.outer(table[i_mu,k,:], miv[k]), axis=0) / n_trials_per_mu`. -/
def OptimumIntervalMethod.confidence_arr (o : OptimumIntervalMethod)
    (miv : List ℚ) : List (List ℚ) :=
  (List.range o.table.length).map (fun i_mu =>
    (List.range miv.length).map (fun k =>
      if k < min o.tableKDim miv.length then
        (((o.table.getD i_mu []).getD k []).countP
            (fun t => decide (t < miv.getD k 0)) : ℚ) / (o.n_trials_per_mu : ℚ)
      else 0))

/-- Embeds `best_conf_over_k = np.max(confidence, axis=1)` (line 113) for a
one-dimensional data instance. -/
def OptimumIntervalMethod.best_conf_over_k (o : OptimumIntervalMethod)
    (miv : List ℚ) (i_mu : ℕ) : ℚ :=
  npmax ((o.confidence_arr miv).getD i_mu [])

/-- Embeds `_oim.OptimumIntervalMethod.max_signal_strength_allowed`
(lines 63-126) for a one-dimensional data instance: extract the intervals by
`k`, build the confidence array, maximise over `k`, mark the signal strengths
whose best confidence is strictly above `confidence_level` with 1 (else 0),
take `np.argmax` of the marks (first-true index, 0 when none is true), and
look the result up in `mu_values`. -/
def OptimumIntervalMethod.max_signal_strength_allowed (o : OptimumIntervalMethod)
    (data : List ℚ) (confidence_level : ℚ) : ℚ :=
  let miv := largest_intervals_by_k data
  let sel := (List.range o.table.length).map
    (fun i_mu => if confidence_level < o.best_conf_over_k miv i_mu then 1 else 0)
  o.mu_values.getD (npargmax sel) 0

/-- Embeds the confidence array of lines 97-112 for a two-dimensional
(batch × events) data instance: shape `(n_mu, M+1, B)`, indexed
`[i_mu][k][b]`. -/
def OptimumIntervalMethod.confidence_arr_batched (o : OptimumIntervalMethod)
    (miv : List (List ℚ)) : List (List (List ℚ)) :=
  (List.range o.table.length).map (fun i_mu =>
    (List.range miv.length).map (fun k =>
      (List.range ((miv.head?.getD []).length)).map (fun b =>
        if k < min o.tableKDim miv.length then
          (((o.table.getD i_mu []).getD k []).countP
              (fun t => decide (t < (miv.getD k []).getD b 0)) : ℚ)
            / (o.n_trials_per_mu : ℚ)
        else 0)))

/-- Embeds `np.max(confidence, axis=1)` (line 113) at batch entry `b` of a
two-dimensional data instance. -/
def OptimumIntervalMethod.best_conf_over_k_batched (o : OptimumIntervalMethod)
    (miv : List (List ℚ)) (i_mu b : ℕ) : ℚ :=
  npmax ((List.range miv.length).map
    (fun k => (((o.confidence_arr_batched miv).getD i_mu []).getD k []).getD b 0))

/-- Embeds `_oim.OptimumIntervalMethod.max_signal_strength_allowed` for a
two-dimensional (batch × events) data array: `np.where` and
`np.argmax(..., axis=0)` act per batch column, and `mu_values[...]` is the
elementwise lookup, giving one signal strength per batch instance. -/
def OptimumIntervalMethod.max_signal_strength_allowed_batched
    (o : OptimumIntervalMethod) (data : List (List ℚ)) (confidence_level : ℚ) :
    List ℚ :=
  let miv := largest_intervals_by_k_batched data
  (List.range data.length).map (fun b =>
    o.mu_values.getD (npargmax ((List.range o.table.length).map
      (fun i_mu => if confidence_level < o.best_conf_over_k_batched miv i_mu b
        then 1 else 0))) 0)

/-- C8: for an input instance with zero events (M = 0, empty last axis), the
interval extractor returns exactly the single value 1.0 (the whole unit
interval contains 0 points). -/
theorem c8_empty_data_unit_interval : largest_intervals_by_k [] = [1] := by
  norm_num [largest_intervals_by_k, kth_largest_interval, edges, npmax, List.range_succ]

/-- C4: for every sorted input of M values in [0,1], the extractor output at
index k (k = 0..M) equals the maximum over all valid i of
`edge[i+k+1] - edge[i]` where `edge` is the input padded with a leading 0.0
and a trailing 1.0; and for input [0.1, 0.2, 0.84] the output is exactly
[0.64, 0.80, 0.90, 1.00]. -/
theorem c4_interval_extractor_spec :
    (∀ data : List ℚ, data.Sorted (· ≤ ·) → (∀ x ∈ data, 0 ≤ x ∧ x ≤ 1) →
      ∀ k ≤ data.length,
        (largest_intervals_by_k data).getD k 0 = kth_largest_interval_from_spec data k)
    ∧ largest_intervals_by_k [1/10, 2/10, 84/100] = [64/100, 80/100, 90/100, 1] := by
  constructor
  · intro data _ _ k hk
    rw [largest_intervals_by_k, getD_map_range _ _ (by omega)]
    exact kth_largest_interval_eq_spec data k hk
  · norm_num [largest_intervals_by_k, kth_largest_interval, edges, npmax, List.range_succ]

/-- Witness for C4 at the concrete sorted input [1/2] and k = 1. -/
theorem c4_interval_extractor_spec_witness :
    (largest_intervals_by_k [1/2]).getD 1 0 = kth_largest_interval_from_spec [1/2] 1 :=
  c4_interval_extractor_spec.1 [1/2] (by simp) (by norm_num) 1 (by norm_num)

/-- C2: for every table, every observed interval-by-k vector with entries in
[0,1], every mu index of the table, and every k covered by both the table and
the observation, the computed confidence equals the number of trial entries in
`table[mu][k]` strictly less than `observed[k]`, divided by
`n_trials_per_mu`. -/
theorem c2_confidence_formula (o : OptimumIntervalMethod) (miv : List ℚ)
    (i_mu k : ℕ) (hbound : ∀ x ∈ miv, 0 ≤ x ∧ x ≤ 1)
    (hi : i_mu < o.table.length) (hk₁ : k < o.tableKDim) (hk₂ : k < miv.length) :
    ((o.confidence_arr miv).getD i_mu []).getD k 0
      = (((o.table.getD i_mu []).getD k []).countP
          (fun t => decide (t < miv.getD k 0)) : ℚ) / (o.n_trials_per_mu : ℚ) := by
  rw [OptimumIntervalMethod.confidence_arr, getD_map_range _ _ hi,
    getD_map_range _ _ hk₂, if_pos (lt_min hk₁ hk₂)]

/-- Witness for C2 at a concrete one-mu table and observation. -/
theorem c2_confidence_formula_witness :
    ((OptimumIntervalMethod.confidence_arr ⟨[[[1/4, 3/4]]], [0], [0], 2⟩
        [1/2, 1]).getD 0 []).getD 0 0
      = ((([[[1/4, 3/4]]] : List (List (List ℚ))).getD 0 []).getD 0 []).countP
          (fun t => decide (t < ([1/2, 1] : List ℚ).getD 0 0)) / ((2 : ℕ) : ℚ) :=
  c2_confidence_formula ⟨[[[1/4, 3/4]]], [0], [0], 2⟩ [1/2, 1] 0 0
    (by norm_num) (by norm_num) (by norm_num [OptimumIntervalMethod.tableKDim])
    (by norm_num)

/-- C1: the claim asks the solver to signal an explicit not-found condition
(or a tagged upper bound) when no mu clears the confidence threshold; the code
instead silently returns the grid's first entry.  Concretely, with a table
whose trials are all 1.0, no signal strength attains a best confidence above
0.999, yet `max_signal_strength_allowed` returns `mu_values[0] = 0`. -/
theorem c1_silent_first_mu :
    ¬ (999/1000 : ℚ) < OptimumIntervalMethod.best_conf_over_k
        ⟨[[[1, 1]], [[1, 1]]], [0, 5], [0], 2⟩ (largest_intervals_by_k [1/2]) 0
    ∧ ¬ (999/1000 : ℚ) < OptimumIntervalMethod.best_conf_over_k
        ⟨[[[1, 1]], [[1, 1]]], [0, 5], [0], 2⟩ (largest_intervals_by_k [1/2]) 1
    ∧ OptimumIntervalMethod.max_signal_strength_allowed
        ⟨[[[1, 1]], [[1, 1]]], [0, 5], [0], 2⟩ [1/2] (999/1000)
      = ([0, 5] : List ℚ).getD 0 0 := by
  norm_num [OptimumIntervalMethod.max_signal_strength_allowed,
    OptimumIntervalMethod.best_conf_over_k, OptimumIntervalMethod.confidence_arr,
    OptimumIntervalMethod.tableKDim, largest_intervals_by_k, kth_largest_interval,
    edges, npmax, npargmax, npmaxN, List.range_succ, List.countP, List.countP.go]

/-- Any trial whose event count `c` is below `k` yields the sentinel value 1.0
in the generated table: for `k > c` every `k`-point interval difference
touches the `nan` padding, is replaced by `-1.0`, and the negative maximum is
recast to `1.0` (lines 76-89 of `_sample_generation.py`). -/
theorem trial_max_interval_eq_one {maxcount c k : ℕ} (events : List ℚ)
    (hck : c < k) (hk : k ≤ maxcount) :
    trial_max_interval maxcount c k events = 1 := by
  have hall : ∀ x ∈ (List.range (maxcount + 2 - (k + 1))).map
      (fun i => nan_diff (uswe_at c events (i + k + 1)) (uswe_at c events i)), x = -1 := by
    intro x hx
    obtain ⟨i, _, rfl⟩ := List.mem_map.mp hx
    have hnone : uswe_at c events (i + k + 1) = none := by
      unfold uswe_at
      rw [if_neg (by omega), if_neg (by omega), if_neg (by omega)]
    rw [hnone]
    cases uswe_at c events i <;> rfl
  have hne : (List.range (maxcount + 2 - (k + 1))).map
      (fun i => nan_diff (uswe_at c events (i + k + 1)) (uswe_at c events i)) ≠ [] := by
    simp only [ne_eq, List.map_eq_nil_iff, List.range_eq_nil]
    omega
  unfold trial_max_interval
  rw [npmax_eq_of_forall_eq hne hall]
  norm_num

theorem head?_getD_map_range {α : Type} (f : ℕ → α) (d : α) {n : ℕ} (h : 0 < n) :
    (((List.range n).map f).head?).getD d = f 0 := by
  obtain ⟨m, rfl⟩ : ∃ m, n = m + 1 := ⟨n - 1, by omega⟩
  rw [List.range_succ_eq_map]
  simp

set_option maxHeartbeats 4000000 in
/-- C5 counterexample: with Poisson draws `[[0], [2]]` (the single trial of
the first signal strength has 0 events, so no trial of that mu ever reaches
k = 1), the generated table still carries k = 1 for that mu — the row's
k-extent is 3, driven by the other mu — and the stored entry is exactly 1.0,
not an absent marking distinguishable from 1.0. -/
theorem c5_absent_marking_counterexample :
    (([[0], [2]] : List (List ℕ)).getD 0 []).getD 0 0 < 1
    ∧ 1 < ((generate_max_interval_samples [[0], [2]]
        [[[]], [[1/4, 1/2]]]).getD 0 []).length
    ∧ (((generate_max_interval_samples [[0], [2]]
        [[[]], [[1/4, 1/2]]]).getD 0 []).getD 1 []).getD 0 0 = 1 := by
  refine ⟨by norm_num, ?_, ?_⟩
  · norm_num [generate_max_interval_samples, npmaxN, List.range_succ]
  · norm_num [generate_max_interval_samples, trial_max_interval, uswe_at, nan_diff,
      npmax, npmaxN, List.range_succ]

/-- C5 (amended): in the generated table, any trial whose event count is below
k contributes the entry 1.0 for that k (never an undefined value), and the
k-extent of every mu's row is the global maximum event count over all mus and
trials plus one — so only k beyond that global bound is absent; a (mu,k)
combination reached by no trial of that mu but reached under another mu is
stored as 1.0, indistinguishable from an observed maximal interval. -/
theorem c5_sentinel_amended (counts : List (List ℕ)) (events : List (List (List ℚ)))
    (i_mu t k : ℕ) (hi : i_mu < counts.length)
    (ht : t < (counts.getD i_mu []).length)
    (hk : k ≤ npmaxN (counts.map npmaxN))
    (hck : (counts.getD i_mu []).getD t 0 < k) :
    (((generate_max_interval_samples counts events).getD i_mu []).getD k []).getD t 0 = 1
    ∧ ((generate_max_interval_samples counts events).getD i_mu []).length
        = npmaxN (counts.map npmaxN) + 1 := by
  constructor
  · rw [generate_max_interval_samples, getD_map_range _ _ hi,
      getD_map_range _ _ (by omega), getD_map_range _ _ ht]
    exact trial_max_interval_eq_one _ hck hk
  · rw [generate_max_interval_samples, getD_map_range _ _ hi]
    simp

/-- Witness for C5 (amended) at the concrete generation input of the
counterexample: mu index 0, trial 0, k = 1. -/
theorem c5_sentinel_amended_witness :
    (((generate_max_interval_samples [[0], [2]] [[[]], [[1/4, 1/2]]]).getD 0 []).getD 1 []).getD 0 0 = 1
    ∧ ((generate_max_interval_samples [[0], [2]] [[[]], [[1/4, 1/2]]]).getD 0 []).length
        = npmaxN ([[0], [2]].map npmaxN) + 1 :=
  c5_sentinel_amended [[0], [2]] [[[]], [[1/4, 1/2]]] 0 0 1
    (by norm_num) (by norm_num) (by norm_num [npmaxN]) (by norm_num)

/-- C6: for a table generated by `generate_max_interval_samples`, if no Monte
Carlo trial for a given mu ever reached k events, then the computed
confidence at (mu,k) is 0 for every observed interval-by-k vector with
entries in [0,1]: either k is beyond the table's k-extent or beyond the
observation (the array keeps its 0.0 initialisation), or every stored trial
entry is the sentinel 1.0 and no entry is strictly below an observation
bounded by 1. -/
theorem c6_missing_coverage_zero (counts : List (List ℕ))
    (events : List (List (List ℚ))) (mus : List ℚ) (ks : List ℕ) (n : ℕ)
    (miv : List ℚ) (i_mu k : ℕ)
    (hbound : ∀ x ∈ miv, 0 ≤ x ∧ x ≤ 1)
    (hi : i_mu < counts.length)
    (hnever : ∀ t < (counts.getD i_mu []).length, (counts.getD i_mu []).getD t 0 < k) :
    ((OptimumIntervalMethod.confidence_arr
        ⟨generate_max_interval_samples counts events, mus, ks, n⟩ miv).getD i_mu []).getD k 0
      = 0 := by
  have hlen : (generate_max_interval_samples counts events).length = counts.length := by
    rw [generate_max_interval_samples]
    simp
  have hi' : i_mu < (generate_max_interval_samples counts events).length := by
    rw [hlen]; exact hi
  by_cases hk₂ : k < miv.length
  · have hkdim : (⟨generate_max_interval_samples counts events, mus, ks, n⟩ :
        OptimumIntervalMethod).tableKDim = npmaxN (counts.map npmaxN) + 1 := by
      show ((generate_max_interval_samples counts events).head?.getD []).length = _
      rw [generate_max_interval_samples, head?_getD_map_range _ _ (by omega)]
      simp
    by_cases hk₁ : k < npmaxN (counts.map npmaxN) + 1
    · rw [OptimumIntervalMethod.confidence_arr, getD_map_range _ _ hi',
        getD_map_range _ _ hk₂, if_pos (by rw [hkdim]; exact lt_min hk₁ hk₂)]
      have hrow : ((⟨generate_max_interval_samples counts events, mus, ks, n⟩ :
          OptimumIntervalMethod).table.getD i_mu []).getD k []
          = (List.range ((counts.getD i_mu []).length)).map (fun t =>
              trial_max_interval (npmaxN (counts.map npmaxN))
                ((counts.getD i_mu []).getD t 0) k
                ((events.getD i_mu []).getD t [])) := by
        show ((generate_max_interval_samples counts events).getD i_mu []).getD k [] = _
        rw [generate_max_interval_samples, getD_map_range _ _ hi,
          getD_map_range _ _ (by omega)]
      rw [hrow]
      have hcount : ((List.range ((counts.getD i_mu []).length)).map (fun t =>
          trial_max_interval (npmaxN (counts.map npmaxN))
            ((counts.getD i_mu []).getD t 0) k
            ((events.getD i_mu []).getD t []))).countP
            (fun t => decide (t < miv.getD k 0)) = 0 := by
        rw [List.countP_eq_zero]
        intro a ha
        obtain ⟨t, htmem, rfl⟩ := List.mem_map.mp ha
        have ht : t < (counts.getD i_mu []).length := List.mem_range.mp htmem
        rw [trial_max_interval_eq_one _ (hnever t ht) (by omega)]
        have : miv.getD k 0 ≤ 1 := (hbound _ (getD_mem hk₂)).2
        simp only [decide_eq_true_eq, not_lt]
        exact this
      rw [hcount]
      simp
    · rw [OptimumIntervalMethod.confidence_arr, getD_map_range _ _ hi',
        getD_map_range _ _ hk₂, if_neg (by rw [hkdim]; omega)]
  · rw [OptimumIntervalMethod.confidence_arr, getD_map_range _ _ hi',
      getD_eq_default _ _ (by simp; omega)]

/-- Witness for C6 at the concrete generation input of the C5 counterexample:
mu index 0 (whose only trial has 0 events) and k = 1 give confidence 0. -/
theorem c6_missing_coverage_zero_witness :
    ((OptimumIntervalMethod.confidence_arr
        ⟨generate_max_interval_samples [[0], [2]] [[[]], [[1/4, 1/2]]],
          [0, 5], [0, 1, 2], 1⟩ [1/2, 1]).getD 0 []).getD 1 0 = 0 :=
  c6_missing_coverage_zero [[0], [2]] [[[]], [[1/4, 1/2]]] [0, 5] [0, 1, 2] 1
    [1/2, 1] 0 1 (by norm_num) (by norm_num) (by decide)

/-- C7 counterexample: for the two-dimensional input [[1/4,1/2,3/4] twice]
(shape 2 × 3), the claim predicts output shape 2 × 4 (k axis replacing the
last axis); the code instead stacks the k axis in the zeroth position, so the
output's leading axis has length 4, not the batch length 2. -/
theorem c7_axis_position_counterexample :
    (largest_intervals_by_k_batched [[1/4, 1/2, 3/4], [1/4, 1/2, 3/4]]).length = 4
    ∧ ([[1/4, 1/2, 3/4], [1/4, 1/2, 3/4]] : List (List ℚ)).length = 2
    ∧ (largest_intervals_by_k_batched [[1/4, 1/2, 3/4], [1/4, 1/2, 3/4]]).length
        ≠ ([[1/4, 1/2, 3/4], [1/4, 1/2, 3/4]] : List (List ℚ)).length := by
  refine ⟨?_, by norm_num, ?_⟩
  · simp [largest_intervals_by_k_batched]
  · simp [largest_intervals_by_k_batched]

/-- C7 (amended): the extractor output for an N-dimensional input carries the
k axis as one additional axis in the zeroth position, of length M + 1
(M = length of the input's last axis); the input's remaining axes follow it
unchanged, so each per-k entry has the input's batch length. -/
theorem c7_axis_position_amended (data : List (List ℚ)) :
    (largest_intervals_by_k_batched data).length = (data.head?.getD []).length + 1
    ∧ ∀ krow ∈ largest_intervals_by_k_batched data, krow.length = data.length := by
  constructor
  · simp [largest_intervals_by_k_batched]
  · intro krow hk
    obtain ⟨k, _, rfl⟩ := List.mem_map.mp hk
    simp

/-- Witness for C7 (amended) at the concrete 2 × 3 input. -/
theorem c7_axis_position_amended_witness :
    (largest_intervals_by_k_batched [[1/4, 1/2, 3/4], [1/4, 1/2, 3/4]]).length
        = (([[1/4, 1/2, 3/4], [1/4, 1/2, 3/4]] : List (List ℚ)).head?.getD []).length + 1
    ∧ ((largest_intervals_by_k_batched [[1/4, 1/2, 3/4], [1/4, 1/2, 3/4]]).getD 0 []).length
        = ([[1/4, 1/2, 3/4], [1/4, 1/2, 3/4]] : List (List ℚ)).length :=
  ⟨(c7_axis_position_amended [[1/4, 1/2, 3/4], [1/4, 1/2, 3/4]]).1,
   (c7_axis_position_amended [[1/4, 1/2, 3/4], [1/4, 1/2, 3/4]]).2 _
     (getD_mem (by simp [largest_intervals_by_k_batched]))⟩

theorem sorted_lt_getD_mono {l : List ℚ} (h : l.Sorted (· < ·)) {i j : ℕ}
    (hij : i ≤ j) (hj : j < l.length) : l.getD i 0 ≤ l.getD j 0 := by
  rcases eq_or_lt_of_le hij with rfl | hlt
  · exact le_rfl
  · have hi : i < l.length := lt_of_le_of_lt hij hj
    rw [List.getD_eq_getElem _ _ hi, List.getD_eq_getElem _ _ hj]
    exact le_of_lt (h.rel_get_of_lt (a := ⟨i, hi⟩) (b := ⟨j, hj⟩) hlt)

theorem npargmax_indicator_spec {n : ℕ} (p : ℕ → Prop) [DecidablePred p]
    {i0 : ℕ} (hi0 : i0 < n) (hp0 : p i0) :
    npargmax ((List.range n).map (fun i => if p i then 1 else 0)) < n
    ∧ p (npargmax ((List.range n).map (fun i => if p i then 1 else 0)))
    ∧ ∀ j < npargmax ((List.range n).map (fun i => if p i then 1 else 0)), ¬ p j := by
  set sel := (List.range n).map (fun i => if p i then 1 else 0) with hsel
  have hsellen : sel.length = n := by simp [hsel]
  have hselne : sel ≠ [] := by
    intro hnil
    rw [hnil] at hsellen
    simp at hsellen
    omega
  have hmax1 : npmaxN sel = 1 := by
    have h1 : (1 : ℕ) ≤ npmaxN sel := by
      have hgd : sel.getD i0 0 = 1 := by
        rw [hsel, getD_map_range _ _ hi0, if_pos hp0]
      rw [← hgd]
      exact getD_le_npmaxN (by omega)
    have h2 : npmaxN sel ≤ 1 := by
      rw [npmaxN_le_iff]
      intro x hx
      rw [hsel] at hx
      obtain ⟨i, _, rfl⟩ := List.mem_map.mp hx
      split <;> omega
    omega
  have hlt : npargmax sel < n := hsellen ▸ npargmax_lt_length hselne
  refine ⟨hlt, ?_, ?_⟩
  · have hval := getD_npargmax hselne
    rw [hmax1] at hval
    conv at hval => rw [hsel, getD_map_range _ _ hlt]
    by_contra hnp
    rw [if_neg hnp] at hval
    omega
  · intro j hj hpj
    have hval := npargmax_first hj
    rw [hmax1] at hval
    have hjn : j < n := lt_trans hj hlt
    conv at hval => rw [hsel, getD_map_range _ _ hjn, if_pos hpj]
    omega

/-- Embeds `min_i_mu_above = np.argmax(i_mu_above_selection, axis=0)`
(`_oim.py` lines 116-123) for a one-dimensional data instance: the first grid
index whose best confidence is strictly above the threshold (0 when none is). -/
def OptimumIntervalMethod.first_mu_index_above (o : OptimumIntervalMethod)
    (data : List ℚ) (confidence_level : ℚ) : ℕ :=
  npargmax ((List.range o.table.length).map
    (fun i_mu => if confidence_level < o.best_conf_over_k (largest_intervals_by_k data) i_mu
      then 1 else 0))

/-- C3: whenever at least one grid mu has best confidence strictly above the
threshold, `max_signal_strength_allowed` returns the entry of the ascending
signal-strength grid at the first-true index of the scan: that index is in
range, its best confidence clears the threshold, no earlier index does, and
(the grid being ascending) the returned mu is the smallest mu among all grid
entries clearing the threshold. -/
theorem c3_smallest_mu_above_threshold (o : OptimumIntervalMethod)
    (data : List ℚ) (confidence_level : ℚ)
    (hsorted : o.mu_values.Sorted (· < ·))
    (hlen : o.mu_values.length = o.table.length)
    (hex : ∃ i, i < o.table.length ∧
      confidence_level < o.best_conf_over_k (largest_intervals_by_k data) i) :
    o.first_mu_index_above data confidence_level < o.table.length
    ∧ confidence_level < o.best_conf_over_k (largest_intervals_by_k data)
        (o.first_mu_index_above data confidence_level)
    ∧ o.max_signal_strength_allowed data confidence_level
        = o.mu_values.getD (o.first_mu_index_above data confidence_level) 0
    ∧ (∀ j < o.first_mu_index_above data confidence_level,
        ¬ confidence_level < o.best_conf_over_k (largest_intervals_by_k data) j)
    ∧ (∀ j, j < o.table.length →
        confidence_level < o.best_conf_over_k (largest_intervals_by_k data) j →
        o.mu_values.getD (o.first_mu_index_above data confidence_level) 0
          ≤ o.mu_values.getD j 0) := by
  obtain ⟨i0, hi0, hp0⟩ := hex
  obtain ⟨hlt, hpj, hfirst⟩ := npargmax_indicator_spec
    (fun i => confidence_level < o.best_conf_over_k (largest_intervals_by_k data) i) hi0 hp0
  refine ⟨hlt, hpj, rfl, hfirst, ?_⟩
  intro j hjn hpj'
  have hle : o.first_mu_index_above data confidence_level ≤ j := by
    by_contra hgt
    push_neg at hgt
    exact hfirst j hgt hpj'
  exact sorted_lt_getD_mono hsorted hle (by omega)

set_option maxHeartbeats 1000000 in
/-- Witness for C3 at a concrete table whose trials are all 0.0, data [1/2],
and the default threshold 0.9: mu index 0 clears the threshold. -/
theorem c3_smallest_mu_above_threshold_witness :
    OptimumIntervalMethod.first_mu_index_above
        ⟨[[[0, 0]], [[0, 0]]], [0, 5], [0], 2⟩ [1/2] (9/10)
      < ([[[0, 0]], [[0, 0]]] : List (List (List ℚ))).length
    ∧ (9/10 : ℚ) < OptimumIntervalMethod.best_conf_over_k
        ⟨[[[0, 0]], [[0, 0]]], [0, 5], [0], 2⟩ (largest_intervals_by_k [1/2])
        (OptimumIntervalMethod.first_mu_index_above
          ⟨[[[0, 0]], [[0, 0]]], [0, 5], [0], 2⟩ [1/2] (9/10))
    ∧ OptimumIntervalMethod.max_signal_strength_allowed
        ⟨[[[0, 0]], [[0, 0]]], [0, 5], [0], 2⟩ [1/2] (9/10)
      = ([0, 5] : List ℚ).getD (OptimumIntervalMethod.first_mu_index_above
          ⟨[[[0, 0]], [[0, 0]]], [0, 5], [0], 2⟩ [1/2] (9/10)) 0
    ∧ (∀ j < OptimumIntervalMethod.first_mu_index_above
          ⟨[[[0, 0]], [[0, 0]]], [0, 5], [0], 2⟩ [1/2] (9/10),
        ¬ (9/10 : ℚ) < OptimumIntervalMethod.best_conf_over_k
          ⟨[[[0, 0]], [[0, 0]]], [0, 5], [0], 2⟩ (largest_intervals_by_k [1/2]) j)
    ∧ (∀ j, j < ([[[0, 0]], [[0, 0]]] : List (List (List ℚ))).length →
        (9/10 : ℚ) < OptimumIntervalMethod.best_conf_over_k
          ⟨[[[0, 0]], [[0, 0]]], [0, 5], [0], 2⟩ (largest_intervals_by_k [1/2]) j →
        ([0, 5] : List ℚ).getD (OptimumIntervalMethod.first_mu_index_above
          ⟨[[[0, 0]], [[0, 0]]], [0, 5], [0], 2⟩ [1/2] (9/10)) 0
          ≤ ([0, 5] : List ℚ).getD j 0) :=
  c3_smallest_mu_above_threshold ⟨[[[0, 0]], [[0, 0]]], [0, 5], [0], 2⟩ [1/2] (9/10)
    (by norm_num [List.sorted_cons]) (by norm_num)
    ⟨0, by norm_num, by
      norm_num [OptimumIntervalMethod.best_conf_over_k,
        OptimumIntervalMethod.confidence_arr, OptimumIntervalMethod.tableKDim,
        largest_intervals_by_k, kth_largest_interval, edges, npmax,
        List.range_succ, List.countP, List.countP.go]⟩

/-- C9: running the solver on a stacked batch gives, at every batch index, the
same signal strength as running it on that instance alone — the batched
confidence, maximisation, threshold scan and grid lookup all act columnwise. -/
theorem c9_batch_independence (o : OptimumIntervalMethod) (data : List (List ℚ))
    (confidence_level : ℚ) (b : ℕ)
    (hrect : ∀ row ∈ data, row.length = (data.head?.getD []).length)
    (hb : b < data.length) :
    (o.max_signal_strength_allowed_batched data confidence_level).getD b 0
      = o.max_signal_strength_allowed (data.getD b []) confidence_level := by
  have hrow : (data.getD b []).length = (data.head?.getD []).length :=
    hrect _ (getD_mem hb)
  have hlen2 : (largest_intervals_by_k_batched data).length
      = (data.head?.getD []).length + 1 := by
    simp [largest_intervals_by_k_batched]
  have hlen1 : (largest_intervals_by_k (data.getD b [])).length
      = (data.head?.getD []).length + 1 := by
    rw [largest_intervals_by_k, List.length_map, List.length_range, hrow]
  have hB : ((largest_intervals_by_k_batched data).head?.getD []).length
      = data.length := by
    rw [largest_intervals_by_k_batched, head?_getD_map_range _ _ (by omega)]
    simp
  have hcol : ∀ k < (data.head?.getD []).length + 1,
      ((largest_intervals_by_k_batched data).getD k []).getD b 0
        = (largest_intervals_by_k (data.getD b [])).getD k 0 := by
    intro k hk
    rw [largest_intervals_by_k_batched, getD_map_range _ _ hk,
      getD_map_of_lt (fun row => kth_largest_interval row k) data 0 [] hb,
      largest_intervals_by_k, getD_map_range _ _ (by rw [hrow]; omega)]
  have hbest : ∀ i_mu < o.table.length,
      o.best_conf_over_k_batched (largest_intervals_by_k_batched data) i_mu b
        = o.best_conf_over_k (largest_intervals_by_k (data.getD b [])) i_mu := by
    intro i hi
    rw [OptimumIntervalMethod.best_conf_over_k_batched,
      OptimumIntervalMethod.best_conf_over_k,
      OptimumIntervalMethod.confidence_arr, getD_map_range _ _ hi]
    rw [hlen2, hlen1]
    congr 1
    apply List.map_congr_left
    intro k hk
    have hkM : k < (data.head?.getD []).length + 1 := List.mem_range.mp hk
    rw [OptimumIntervalMethod.confidence_arr_batched, getD_map_range _ _ hi,
      getD_map_range _ _ (by rw [hlen2]; exact hkM),
      getD_map_range _ _ (by rw [hB]; exact hb)]
    rw [hcol k hkM, hlen2]
  simp only [OptimumIntervalMethod.max_signal_strength_allowed_batched,
    OptimumIntervalMethod.max_signal_strength_allowed]
  rw [getD_map_range _ _ hb]
  have hsel : (List.range o.table.length).map
      (fun i_mu => if confidence_level
          < o.best_conf_over_k_batched (largest_intervals_by_k_batched data) i_mu b
        then 1 else 0)
      = (List.range o.table.length).map
      (fun i_mu => if confidence_level
          < o.best_conf_over_k (largest_intervals_by_k (data.getD b [])) i_mu
        then 1 else 0) := by
    apply List.map_congr_left
    intro i hi
    rw [hbest i (List.mem_range.mp hi)]
  rw [hsel]

/-- Witness for C9 at a concrete two-instance batch and batch index 0. -/
theorem c9_batch_independence_witness :
    (OptimumIntervalMethod.max_signal_strength_allowed_batched
        ⟨[[[0, 0]], [[0, 0]]], [0, 5], [0], 2⟩ [[1/2], [1/4]] (9/10)).getD 0 0
      = OptimumIntervalMethod.max_signal_strength_allowed
          ⟨[[[0, 0]], [[0, 0]]], [0, 5], [0], 2⟩
          (([[1/2], [1/4]] : List (List ℚ)).getD 0 []) (9/10) :=
  c9_batch_independence ⟨[[[0, 0]], [[0, 0]]], [0, 5], [0], 2⟩ [[1/2], [1/4]]
    (9/10) 0 (by simp) (by norm_num)

theorem edges_getD_zero (data : List ℚ) : (edges data).getD 0 0 = 0 := rfl

theorem edges_getD_last (data : List ℚ) :
    (edges data).getD (data.length + 1) 0 = 1 := by
  rw [List.getD_eq_getElem _ _ (by simp [edges])]
  simp [edges]

theorem edges_sorted {data : List ℚ} (hs : data.Sorted (· ≤ ·))
    (hb : ∀ x ∈ data, 0 ≤ x ∧ x ≤ 1) : (edges data).Sorted (· ≤ ·) := by
  rw [edges, List.sorted_cons]
  constructor
  · intro b hbmem
    rcases List.mem_append.mp hbmem with h | h
    · exact (hb b h).1
    · simp at h
      rw [h]
      norm_num
  · rw [List.Sorted, List.pairwise_append]
    refine ⟨hs, List.sorted_singleton _, ?_⟩
    intro a ha b hbm
    simp at hbm
    rw [hbm]
    exact (hb a ha).2

theorem sorted_le_getD_mono {l : List ℚ} (h : l.Sorted (· ≤ ·)) {i j : ℕ}
    (hij : i ≤ j) (hj : j < l.length) : l.getD i 0 ≤ l.getD j 0 := by
  have hi : i < l.length := lt_of_le_of_lt hij hj
  rw [List.getD_eq_getElem _ _ hi, List.getD_eq_getElem _ _ hj]
  exact h.rel_get_of_le (a := ⟨i, hi⟩) (b := ⟨j, hj⟩) hij

theorem edges_mem_bounds {data : List ℚ} (hb : ∀ x ∈ data, 0 ≤ x ∧ x ≤ 1) :
    ∀ x ∈ edges data, 0 ≤ x ∧ x ≤ 1 := by
  intro x hx
  rw [edges] at hx
  rcases List.mem_cons.mp hx with rfl | hx'
  · norm_num
  · rcases List.mem_append.mp hx' with h | h
    · exact hb x h
    · simp at h
      rw [h]
      norm_num

/-- C10: for every sorted input of M values in [0,1], the extractor output is
monotonically non-decreasing in k, every output entry lies in [0,1], and the
entry at k = M equals exactly 1.0. -/
theorem c10_monotone_bounded (data : List ℚ)
    (hsorted : data.Sorted (· ≤ ·)) (hbound : ∀ x ∈ data, 0 ≤ x ∧ x ≤ 1) :
    (∀ k < data.length,
      (largest_intervals_by_k data).getD k 0
        ≤ (largest_intervals_by_k data).getD (k + 1) 0)
    ∧ (∀ x ∈ largest_intervals_by_k data, 0 ≤ x ∧ x ≤ 1)
    ∧ (largest_intervals_by_k data).getD data.length 0 = 1 := by
  have hes : (edges data).Sorted (· ≤ ·) := edges_sorted hsorted hbound
  have heb : ∀ x ∈ edges data, 0 ≤ x ∧ x ≤ 1 := edges_mem_bounds hbound
  have hel : (edges data).length = data.length + 2 := length_edges data
  refine ⟨?_, ?_, ?_⟩
  · intro k hk
    rw [largest_intervals_by_k, getD_map_range _ _ (by omega),
      getD_map_range _ _ (by omega),
      kth_largest_interval_eq_spec data k (by omega),
      kth_largest_interval_eq_spec data (k + 1) (by omega),
      kth_largest_interval_from_spec, kth_largest_interval_from_spec]
    have hne : ((List.range (data.length + 1 - k)).map
        (fun i => (edges data).getD (i + k + 1) 0 - (edges data).getD i 0)) ≠ [] := by
      simp only [ne_eq, List.map_eq_nil_iff, List.range_eq_nil]
      omega
    rw [npmax_le_iff hne]
    intro x hx
    obtain ⟨i, hir, rfl⟩ := List.mem_map.mp hx
    have hi : i < data.length + 1 - k := List.mem_range.mp hir
    by_cases hcase : i < data.length - k
    · refine le_trans ?_ (le_npmax_of_mem (List.mem_map.mpr
        ⟨i, List.mem_range.mpr (by omega), rfl⟩))
      have hmono := sorted_le_getD_mono hes
        (show i + k + 1 ≤ i + (k + 1) + 1 by omega)
        (show i + (k + 1) + 1 < (edges data).length by omega)
      linarith
    · refine le_trans ?_ (le_npmax_of_mem (List.mem_map.mpr
        ⟨i - 1, List.mem_range.mpr (by omega), rfl⟩))
      have hmono := sorted_le_getD_mono hes (show i - 1 ≤ i by omega)
        (show i < (edges data).length by omega)
      have hidx : i - 1 + (k + 1) + 1 = i + k + 1 := by omega
      rw [hidx]
      linarith
  · intro x hx
    rw [largest_intervals_by_k] at hx
    obtain ⟨k, hkr, rfl⟩ := List.mem_map.mp hx
    have hk : k < data.length + 1 := List.mem_range.mp hkr
    rw [kth_largest_interval_eq_spec data k (by omega), kth_largest_interval_from_spec]
    have hne : ((List.range (data.length + 1 - k)).map
        (fun i => (edges data).getD (i + k + 1) 0 - (edges data).getD i 0)) ≠ [] := by
      simp only [ne_eq, List.map_eq_nil_iff, List.range_eq_nil]
      omega
    obtain ⟨i, hir, heq⟩ := List.mem_map.mp (npmax_mem hne)
    have hi : i < data.length + 1 - k := List.mem_range.mp hir
    rw [← heq]
    constructor
    · have hmono := sorted_le_getD_mono hes (show i ≤ i + k + 1 by omega)
        (show i + k + 1 < (edges data).length by omega)
      linarith
    · have hub := (heb ((edges data).getD (i + k + 1) 0)
        (getD_mem (show i + k + 1 < (edges data).length by omega))).2
      have hlb := (heb ((edges data).getD i 0)
        (getD_mem (show i < (edges data).length by omega))).1
      linarith
  · rw [largest_intervals_by_k, getD_map_range _ _ (by omega),
      kth_largest_interval_eq_spec data data.length le_rfl,
      kth_largest_interval_from_spec]
    rw [show data.length + 1 - data.length = 1 from by omega,
      show List.range 1 = [0] from by decide]
    simp only [List.map_cons, List.map_nil]
    rw [show (0 : ℕ) + data.length + 1 = data.length + 1 from by omega]
    rw [edges_getD_last, edges_getD_zero]
    norm_num [npmax]

/-- Witness for C10 at the concrete sorted input [1/10, 2/10, 84/100]. -/
theorem c10_monotone_bounded_witness :
    (∀ k < ([1/10, 2/10, 84/100] : List ℚ).length,
      (largest_intervals_by_k [1/10, 2/10, 84/100]).getD k 0
        ≤ (largest_intervals_by_k [1/10, 2/10, 84/100]).getD (k + 1) 0)
    ∧ (∀ x ∈ largest_intervals_by_k [1/10, 2/10, 84/100], 0 ≤ x ∧ x ≤ 1)
    ∧ (largest_intervals_by_k [1/10, 2/10, 84/100]).getD
        ([1/10, 2/10, 84/100] : List ℚ).length 0 = 1 :=
  c10_monotone_bounded [1/10, 2/10, 84/100]
    (by norm_num [List.sorted_cons]) (by norm_num)
